import Mathlib

/-!
Verification development for the Parliament member CRUD application
(`src/App.tsx`, `src/validators.ts`).

The program keeps an in-memory ordered list of member records, edits it
through a form controller with two states (creating / editing a given id),
validates drafts against a zod schema, and mirrors the collection to local
storage as JSON text.

The embedding below translates the data model, the validation schema, the
submit/edit/delete handlers and the startup initializer into plain Lean
functions, and proves the specification's testable properties about them.
-/

namespace Parliament

/-- A persisted member record, translating the TypeScript type `Member` in
`src/App.tsx` lines 7-17.  The source field `prefix` is named `prefixStr`
here because `prefix` is a Lean keyword; when validated it holds one of the
four enumerated strings "นาย" (Mr), "นาง" (Mrs), "นางสาว" (Ms), "อื่นๆ"
(Other).  `photo` is the optional data-URL string; `ministerPosition` and
`ministry` are optional free text. -/
structure Member where
  id : String
  prefixStr : String
  firstName : String
  lastName : String
  photo : Option String
  workHistory : String
  ministerPosition : Option String
  ministry : Option String
  party : String
deriving Repr, DecidableEq

/-- A form draft, translating `MemberFormValues` (the zod schema's shape,
`src/App.tsx` lines 19-30).  The `photoFile` field in the source is
`File | null`; its only use is to be converted to a data-URL string by
`fileToDataUrl` before the mutation, so the model carries the eventual
data-URL content directly: `none` means no file selected. -/
structure Draft where
  prefixStr : String
  firstName : String
  lastName : String
  photoFile : Option String
  workHistory : String
  ministerPosition : Option String
  ministry : Option String
  party : String
deriving Repr, DecidableEq

/-- The `z.enum(["นาย", "นาง", "นางสาว", "อื่นๆ"])` check of the schema:
the prefix string must be one of the four literals. -/
def prefixOk (s : String) : Bool :=
  s = "นาย" || s = "นาง" || s = "นางสาว" || s = "อื่นๆ"

/-- The zod schema `memberSchema` (`src/App.tsx` lines 19-29 and
`src/validators.ts` lines 3-12) as a boolean acceptance check: the prefix
must be one of the four enum literals; `firstName`, `lastName`,
`workHistory` and `party` must have length at least 1 (`z.string().min(1)`);
`photoFile` is nullable/optional and `ministerPosition`/`ministry` are
optional, so they are unconstrained here. -/
def memberSchemaCheck (v : Draft) : Bool :=
  prefixOk v.prefixStr
    && 1 ≤ v.firstName.length
    && 1 ≤ v.lastName.length
    && 1 ≤ v.workHistory.length
    && 1 ≤ v.party.length

/-- The photo-required rule as written on the `photoFile` Controller
(`src/App.tsx` line 295): `rules={{ required: !editingId ? "กรุณาอัปโหลดรูป" : false }}` —
a photo file required exactly when no record is being edited.  This rule
is dead code in the program: `useForm` is configured with
`resolver: zodResolver(memberSchema)` (`src/App.tsx` lines 136-139), and
react-hook-form runs only the resolver when one is configured, skipping
field-level `rules` props entirely.  The definition is kept solely to
state the divergence between the rule as written and the validation as
executed; it is no part of `validateDraft`. -/
def photoRuleOk (editingId : Option String) (v : Draft) : Bool :=
  editingId.isSome || v.photoFile.isSome

/-- Submit-time validation as the program executes it: `handleSubmit`
validates through the configured resolver `zodResolver(memberSchema)`
alone (field-level `rules` props are ignored when a resolver is
configured), so validation is exactly the zod schema and does not depend
on the editing state. -/
def validateDraft (v : Draft) : Bool :=
  memberSchemaCheck v

/-- The form's default values (`initialValues`, `src/App.tsx` lines 90-99):
prefix "นาย", empty strings, no photo file. -/
def initialValues : Draft :=
  { prefixStr := "นาย"
    firstName := ""
    lastName := ""
    photoFile := none
    workHistory := ""
    ministerPosition := some ""
    ministry := some ""
    party := "" }

/-- The record built by the create branch of `onSubmit` (`src/App.tsx`
lines 191-204): a freshly generated id, the draft's fields,
`ministerPosition`/`ministry` defaulted to `""` via `|| ""`, and `photo`
set to the converted data URL (absent when no file was chosen).  The id
generated by `safeUUID()` is passed in as a parameter `genId`, since it is
produced by an external randomness source with no reference to the
collection. -/
def mkMember (genId : String) (v : Draft) : Member :=
  { id := genId
    prefixStr := v.prefixStr
    firstName := v.firstName
    lastName := v.lastName
    photo := v.photoFile
    workHistory := v.workHistory
    ministerPosition := some (v.ministerPosition.getD "")
    ministry := some (v.ministry.getD "")
    party := v.party }

/-- The create mutation on the collection (`setMembers((prev) => [...prev, {...}])`,
`src/App.tsx` lines 191-204): append the new record. -/
def createMembers (genId : String) (v : Draft) (prev : List Member) : List Member :=
  prev ++ [mkMember genId v]

/-- The per-record update of the edit branch of `onSubmit` (`src/App.tsx`
lines 173-187): spread the old record, overwrite every field from the
draft (`ministerPosition`/`ministry` defaulted to `""` via `|| ""`), and
set `photo := dataUrl ?? m.photo` — the old photo is kept when no new file
was supplied.  The record's `id` is not overwritten. -/
def updateOne (v : Draft) (m : Member) : Member :=
  { m with
    prefixStr := v.prefixStr
    firstName := v.firstName
    lastName := v.lastName
    workHistory := v.workHistory
    ministerPosition := some (v.ministerPosition.getD "")
    ministry := some (v.ministry.getD "")
    party := v.party
    photo := match v.photoFile with
      | some d => some d
      | none => m.photo }

/-- The update mutation on the collection
(`setMembers((prev) => prev.map((m) => m.id === editingId ? {...} : m))`,
`src/App.tsx` lines 172-188). -/
def updateMembers (eid : String) (v : Draft) (prev : List Member) : List Member :=
  prev.map (fun m => if m.id = eid then updateOne v m else m)

/-- The delete mutation (`setMembers((prev) => prev.filter((m) => m.id !== id))`,
`src/App.tsx` line 231). -/
def deleteMembers (did : String) (prev : List Member) : List Member :=
  prev.filter (fun m => m.id != did)

/-- The controller's state: the collection, the nullable currently-editing
id (`editingId` state, `src/App.tsx` line 118; `none` = Creating,
`some id` = Editing id), and the current form draft. -/
structure AppState where
  members : List Member
  editingId : Option String
  draft : Draft
deriving Repr, DecidableEq

/-- The submit handler `onSubmit` (`src/App.tsx` lines 164-214).
`handleSubmit` invokes the callback only when validation succeeds; on
failure the state is untouched.  On success: if `editingId` is set the
collection is updated through `updateMembers`, otherwise a new record with
the generated id `genId` is appended; in both branches `editingId` is
cleared and the form is reset to `initialValues`. -/
def onSubmit (genId : String) (v : Draft) (st : AppState) : AppState :=
  if validateDraft v then
    match st.editingId with
    | some eid =>
        { members := updateMembers eid v st.members
          editingId := none
          draft := initialValues }
    | none =>
        { members := createMembers genId v st.members
          editingId := none
          draft := initialValues }
  else st

/-- The edit handler `onEdit` (`src/App.tsx` lines 216-228): select the
record's id and pre-populate the draft from it, with `photoFile` cleared
(re-upload optional) and the optional fields defaulted via `?? ""`. -/
def onEdit (m : Member) (st : AppState) : AppState :=
  { st with
    editingId := some m.id
    draft :=
      { prefixStr := m.prefixStr
        firstName := m.firstName
        lastName := m.lastName
        photoFile := none
        workHistory := m.workHistory
        ministerPosition := some (m.ministerPosition.getD "")
        ministry := some (m.ministry.getD "")
        party := m.party } }

/-- The delete handler `onDelete` (`src/App.tsx` lines 230-236): filter the
record out of the collection; if the deleted id is the one being edited,
clear `editingId` and reset the draft to defaults, otherwise leave the
editing state and draft alone. -/
def onDelete (did : String) (st : AppState) : AppState :=
  { members := deleteMembers did st.members
    editingId := if st.editingId = some did then none else st.editingId
    draft := if st.editingId = some did then initialValues else st.draft }

/-!
## Persistence adapter

The collection is mirrored to local storage as JSON text
(`JSON.stringify(members)` on every change, `src/App.tsx` line 122) and
read back at startup (`JSON.parse(raw)`, line 113).  `JSON.stringify` /
`JSON.parse` are platform functions, not code of this repository, so the
serializer below is modelled from the spec: "a single local-storage entry
under a fixed key holding the JSON array of Member records"; fields are
emitted in the object-literal order of the source, a `none` optional field
is omitted (as `JSON.stringify` omits `undefined` properties), and string
values are escaped (quote, backslash and the common control characters). -/

/-- JSON string escaping of one character: `"` and `\` are
backslash-escaped, newline / carriage return / tab become `\n` / `\r` /
`\t`, everything else is emitted as itself. -/
def escChar (c : Char) : List Char :=
  if c = '"' then ['\\', '"']
  else if c = '\\' then ['\\', '\\']
  else if c = '\n' then ['\\', 'n']
  else if c = '\r' then ['\\', 'r']
  else if c = '\t' then ['\\', 't']
  else [c]

/-- JSON string escaping of a character list. -/
def escList : List Char → List Char
  | [] => []
  | c :: cs => escChar c ++ escList cs

/-- Inverse of `escChar` on the character following a backslash. -/
def unescChar (c : Char) : Option Char :=
  if c = '"' then some '"'
  else if c = '\\' then some '\\'
  else if c = 'n' then some '\n'
  else if c = 'r' then some '\r'
  else if c = 't' then some '\t'
  else none

/-- Parse the body of a JSON string up to (and consuming) the unescaped
closing quote; returns the unescaped content and the remaining input. -/
def parseStr : List Char → Option (List Char × List Char)
  | [] => none
  | c :: l =>
    if c = '"' then some ([], l)
    else if c = '\\' then
      match l with
      | [] => none
      | e :: l2 =>
        match unescChar e, parseStr l2 with
        | some d, some (s, r) => some (d :: s, r)
        | _, _ => none
    else
      match parseStr l with
      | some (s, r) => some (c :: s, r)
      | none => none

/-- Strip an expected literal pattern off the front of the input. -/
def stripPre : List Char → List Char → Option (List Char)
  | [], l => some l
  | _ :: _, [] => none
  | c :: p, d :: l => if c = d then stripPre p l else none

/-- The characters introducing a non-first field of key `k`, up to and
including the opening quote of its string value: `,"k":"`. -/
def fldPat (k : List Char) : List Char :=
  ',' :: '"' :: (k ++ '"' :: ':' :: '"' :: [])

/-- The characters introducing the first field of an object: `{"k":"`. -/
def fldPatFirst (k : List Char) : List Char :=
  '{' :: '"' :: (k ++ '"' :: ':' :: '"' :: [])

/-- Serialize a non-first string field `,"k":"…"`. -/
def serFld (k : List Char) (v : String) : List Char :=
  fldPat k ++ escList v.data ++ ['"']

/-- Serialize the first string field `{"k":"…"`. -/
def serFldFirst (k : List Char) (v : String) : List Char :=
  fldPatFirst k ++ escList v.data ++ ['"']

/-- Serialize an optional string field: omitted entirely when `none`. -/
def serOptFld (k : List Char) : Option String → List Char
  | none => []
  | some v => serFld k v

/-- Key names as character lists. -/
def kId : List Char := ['i', 'd']

def kPfx : List Char := ['p', 'r', 'e', 'f', 'i', 'x']

def kFirstName : List Char := ['f', 'i', 'r', 's', 't', 'N', 'a', 'm', 'e']

def kLastName : List Char := ['l', 'a', 's', 't', 'N', 'a', 'm', 'e']

def kWorkHistory : List Char := ['w', 'o', 'r', 'k', 'H', 'i', 's', 't', 'o', 'r', 'y']

def kMinisterPosition : List Char :=
  ['m', 'i', 'n', 'i', 's', 't', 'e', 'r', 'P', 'o', 's', 'i', 't', 'i', 'o', 'n']

def kMinistry : List Char := ['m', 'i', 'n', 'i', 's', 't', 'r', 'y']

def kParty : List Char := ['p', 'a', 'r', 't', 'y']

def kPhoto : List Char := ['p', 'h', 'o', 't', 'o']

/-- Serialize one member record as a JSON object, with keys in the
object-literal order of `src/App.tsx` lines 193-203: `id`, `prefix`,
`firstName`, `lastName`, `workHistory`, `ministerPosition`, `ministry`,
`party`, `photo`; `none` optional fields are omitted. -/
def serMember (m : Member) : List Char :=
  serFldFirst kId m.id
    ++ serFld kPfx m.prefixStr
    ++ serFld kFirstName m.firstName
    ++ serFld kLastName m.lastName
    ++ serFld kWorkHistory m.workHistory
    ++ serOptFld kMinisterPosition m.ministerPosition
    ++ serOptFld kMinistry m.ministry
    ++ serFld kParty m.party
    ++ serOptFld kPhoto m.photo
    ++ ['}']

/-- Serialize the tail of the member array: `,member` for each member. -/
def serItems : List Member → List Char
  | [] => []
  | m :: ms => ',' :: (serMember m ++ serItems ms)

/-- Serialize the full collection as a JSON array. -/
def serMembersL : List Member → List Char
  | [] => ['[', ']']
  | m :: ms => '[' :: (serMember m ++ (serItems ms ++ [']']))

/-- The persisted snapshot text of the collection. -/
def serialize (ms : List Member) : String :=
  String.mk (serMembersL ms)

/-- Parse a required string field introduced by pattern `pat`. -/
def parseReqFld (pat : List Char) (l : List Char) : Option (String × List Char) :=
  match stripPre pat l with
  | none => none
  | some r =>
    match parseStr r with
    | none => none
    | some (s, r2) => some (String.mk s, r2)

/-- Parse an optional string field of key `k`: when the input does not
start with the field's pattern the field is absent and no input is
consumed. -/
def parseOptFld (k : List Char) (l : List Char) : Option (Option String × List Char) :=
  match stripPre (fldPat k) l with
  | none => some (none, l)
  | some r =>
    match parseStr r with
    | none => none
    | some (s, r2) => some (some (String.mk s), r2)

/-- Parse one member object (fields in serialization order, the three
optional fields by lookahead on their key), consuming the closing `}`. -/
def parseMember (l : List Char) : Option (Member × List Char) :=
  match parseReqFld (fldPatFirst kId) l with
  | none => none
  | some (vid, l1) =>
    match parseReqFld (fldPat kPfx) l1 with
    | none => none
    | some (vpfx, l2) =>
      match parseReqFld (fldPat kFirstName) l2 with
      | none => none
      | some (vfn, l3) =>
        match parseReqFld (fldPat kLastName) l3 with
        | none => none
        | some (vln, l4) =>
          match parseReqFld (fldPat kWorkHistory) l4 with
          | none => none
          | some (vwh, l5) =>
            match parseOptFld kMinisterPosition l5 with
            | none => none
            | some (vmp, l6) =>
              match parseOptFld kMinistry l6 with
              | none => none
              | some (vmin, l7) =>
                match parseReqFld (fldPat kParty) l7 with
                | none => none
                | some (vparty, l8) =>
                  match parseOptFld kPhoto l8 with
                  | none => none
                  | some (vphoto, l9) =>
                    match l9 with
                    | '}' :: l10 =>
                      some
                        ({ id := vid
                           prefixStr := vpfx
                           firstName := vfn
                           lastName := vln
                           photo := vphoto
                           workHistory := vwh
                           ministerPosition := vmp
                           ministry := vmin
                           party := vparty }, l10)
                    | _ => none

/-- Parse the tail of the member array (`,member` repeated, then `]`),
with a fuel bound on the number of members. -/
def parseItems : Nat → List Char → Option (List Member × List Char)
  | _, ']' :: r => some ([], r)
  | Nat.succ f, ',' :: r =>
    match parseMember r with
    | none => none
    | some (m, r2) =>
      match parseItems f r2 with
      | none => none
      | some (ms, r3) => some (m :: ms, r3)
  | _, _ => none

/-- Parse a full snapshot: a JSON array of member objects consuming the
whole input.  Any other input is rejected. -/
def deserializeL (l : List Char) : Option (List Member) :=
  match l with
  | '[' :: rest =>
    if rest = [']'] then some []
    else
      match parseMember rest with
      | none => none
      | some (m, r2) =>
        match parseItems r2.length r2 with
        | none => none
        | some (ms, r3) => if r3 = [] then some (m :: ms) else none
  | _ => none

/-- Deserialize a persisted snapshot text. -/
def deserialize (s : String) : Option (List Member) :=
  deserializeL s.data

/-- The startup initializer of the collection (`useState` initializer,
`src/App.tsx` lines 110-117): read the stored value under the key
"members" (`none` models an absent key); when present, parse it, and on
any parse failure — the `try`/`catch` — fall back to the empty
collection. -/
def initMembers (stored : Option String) : List Member :=
  match stored with
  | none => []
  | some raw => (deserialize raw).getD []

/-!
## Round-trip lemmas for the persistence adapter
-/

theorem strMk_data (s : String) : String.mk s.data = s := rfl

theorem stripPre_append (p r : List Char) : stripPre p (p ++ r) = some r := by
  induction p with
  | nil => rfl
  | cons c p ih => simp [stripPre, ih]

theorem parseStr_quote (l : List Char) : parseStr ('"' :: l) = some ([], l) := by
  rw [parseStr.eq_def]; simp

theorem parseStr_plain (c : Char) (h1 : c ≠ '"') (h2 : c ≠ '\\') (l s r : List Char)
    (hp : parseStr l = some (s, r)) : parseStr (c :: l) = some (c :: s, r) := by
  rw [parseStr.eq_def]; simp [h1, h2, hp]

theorem parseStr_escaped (e d : Char) (he : unescChar e = some d) (l s r : List Char)
    (hp : parseStr l = some (s, r)) : parseStr ('\\' :: e :: l) = some (d :: s, r) := by
  rw [parseStr.eq_def]; simp [he, hp]

theorem parseStr_esc (s r : List Char) : parseStr (escList s ++ '"' :: r) = some (s, r) := by
  induction s with
  | nil => exact parseStr_quote r
  | cons c cs ih =>
    have hexp : escList (c :: cs) ++ '"' :: r = escChar c ++ (escList cs ++ '"' :: r) := by
      simp [escList]
    rw [hexp]
    by_cases h1 : c = '"'
    · subst h1
      have hc : escChar '"' = ['\\', '"'] := by simp [escChar]
      rw [hc]
      exact parseStr_escaped '"' '"' (by simp [unescChar]) _ _ _ ih
    · by_cases h2 : c = '\\'
      · subst h2
        have hc : escChar '\\' = ['\\', '\\'] := by simp [escChar]
        rw [hc]
        exact parseStr_escaped '\\' '\\' (by simp [unescChar]) _ _ _ ih
      · by_cases h3 : c = '\n'
        · subst h3
          have hc : escChar '\n' = ['\\', 'n'] := by simp [escChar]
          rw [hc]
          exact parseStr_escaped 'n' '\n' (by simp [unescChar]) _ _ _ ih
        · by_cases h4 : c = '\r'
          · subst h4
            have hc : escChar '\r' = ['\\', 'r'] := by simp [escChar]
            rw [hc]
            exact parseStr_escaped 'r' '\r' (by simp [unescChar]) _ _ _ ih
          · by_cases h5 : c = '\t'
            · subst h5
              have hc : escChar '\t' = ['\\', 't'] := by simp [escChar]
              rw [hc]
              exact parseStr_escaped 't' '\t' (by simp [unescChar]) _ _ _ ih
            · have hc : escChar c = [c] := by simp [escChar, h1, h2, h3, h4, h5]
              rw [hc]
              exact parseStr_plain c h1 h2 _ _ _ ih

theorem parseReqFld_ser (k : List Char) (v : String) (r : List Char) :
    parseReqFld (fldPat k) (serFld k v ++ r) = some (v, r) := by
  simp [parseReqFld, serFld, List.append_assoc, stripPre_append, parseStr_esc, strMk_data]

theorem parseReqFld_serFirst (k : List Char) (v : String) (r : List Char) :
    parseReqFld (fldPatFirst k) (serFldFirst k v ++ r) = some (v, r) := by
  simp [parseReqFld, serFldFirst, List.append_assoc, stripPre_append, parseStr_esc, strMk_data]

theorem parseOptFld_ser (k : List Char) (v : String) (r : List Char) :
    parseOptFld k (serFld k v ++ r) = some (some v, r) := by
  simp [parseOptFld, serFld, List.append_assoc, stripPre_append, parseStr_esc, strMk_data]

theorem parseOptFld_skip_mp_ministry (v : String) (l : List Char) :
    parseOptFld kMinisterPosition (serFld kMinistry v ++ l)
      = some (none, serFld kMinistry v ++ l) := by
  simp [parseOptFld, serFld, fldPat, kMinisterPosition, kMinistry, stripPre]

theorem parseOptFld_skip_mp_party (v : String) (l : List Char) :
    parseOptFld kMinisterPosition (serFld kParty v ++ l)
      = some (none, serFld kParty v ++ l) := by
  simp [parseOptFld, serFld, fldPat, kMinisterPosition, kParty, stripPre]

theorem parseOptFld_skip_ministry_party (v : String) (l : List Char) :
    parseOptFld kMinistry (serFld kParty v ++ l)
      = some (none, serFld kParty v ++ l) := by
  simp [parseOptFld, serFld, fldPat, kMinistry, kParty, stripPre]

theorem parseOptFld_skip_photo_brace (l : List Char) :
    parseOptFld kPhoto ('}' :: l) = some (none, '}' :: l) := by
  simp [parseOptFld, fldPat, kPhoto, stripPre]

theorem parseMember_ser (m : Member) (r : List Char) :
    parseMember (serMember m ++ r) = some (m, r) := by
  obtain ⟨vid, vpfx, vfn, vln, vphoto, vwh, vmp, vmin, vparty⟩ := m
  cases vmp <;> cases vmin <;> cases vphoto <;>
    simp [serMember, serOptFld, parseMember, List.append_assoc,
      parseReqFld_serFirst, parseReqFld_ser, parseOptFld_ser,
      parseOptFld_skip_mp_ministry, parseOptFld_skip_mp_party,
      parseOptFld_skip_ministry_party, parseOptFld_skip_photo_brace]

theorem serItems_length (ms : List Member) : ms.length ≤ (serItems ms).length := by
  induction ms with
  | nil => simp [serItems]
  | cons m ms ih => simp only [serItems, List.length_cons, List.length_append]; omega

theorem parseItems_ser (ms : List Member) :
    ∀ f r, ms.length < f → parseItems f (serItems ms ++ ']' :: r) = some (ms, r) := by
  induction ms with
  | nil => intro f r _; simp [serItems, parseItems]
  | cons m ms ih =>
    intro f r h
    obtain ⟨f, rfl⟩ : ∃ g, f = g + 1 := ⟨f - 1, by omega⟩
    have hf : ms.length < f := by simpa using Nat.lt_of_succ_lt_succ h
    simp [serItems, parseItems, List.append_assoc, parseMember_ser, ih f r hf]

theorem serMember_head (m : Member) : ∃ t, serMember m = '{' :: t := by
  simp only [serMember, serFldFirst, fldPatFirst, List.cons_append, List.append_assoc]
  exact ⟨_, rfl⟩

theorem deserializeL_ser (ms : List Member) : deserializeL (serMembersL ms) = some ms := by
  cases ms with
  | nil => rfl
  | cons m ms =>
    have hne : serMember m ++ (serItems ms ++ [']']) ≠ [']'] := by
      obtain ⟨t, ht⟩ := serMember_head m
      rw [ht]
      simp
    have h1 : parseMember (serMember m ++ (serItems ms ++ [']']))
        = some (m, serItems ms ++ [']']) := parseMember_ser m _
    have hlen : ms.length < (serItems ms).length + 1 := by
      have := serItems_length ms
      omega
    have h2 : parseItems ((serItems ms).length + 1) (serItems ms ++ [']'])
        = some (ms, []) := by
      have := parseItems_ser ms ((serItems ms).length + 1) [] hlen
      simpa using this
    rw [serMembersL, deserializeL.eq_def]
    simp [hne, h1, h2]

/-!
## Helper lemmas and sample data
-/

theorem one_le_length_of_ne (s : String) (h : s ≠ "") : 1 ≤ s.length := by
  cases s with
  | mk d =>
    cases d with
    | nil => exact absurd rfl h
    | cons c cs => simp [String.length]

/-- A fully populated valid draft (the worked example of the spec), with a
photo file selected. -/
def sampleDraft : Draft :=
  { prefixStr := "นาย"
    firstName := "Somchai"
    lastName := "Sukjai"
    photoFile := some "data:image/png;base64,AAAA"
    workHistory := "MP since 2019"
    ministerPosition := some ""
    ministry := some ""
    party := "Demo Party" }

/-- The same draft with no image supplied. -/
def sampleDraftNoPhoto : Draft := { sampleDraft with photoFile := none }

/-- A draft whose four required text fields are single spaces. -/
def spaceDraft : Draft :=
  { prefixStr := "นาย"
    firstName := " "
    lastName := " "
    photoFile := none
    workHistory := " "
    ministerPosition := some ""
    ministry := some ""
    party := " " }

/-- A sample stored record with id "x". -/
def memberA : Member :=
  { id := "x"
    prefixStr := "นาย"
    firstName := "A"
    lastName := "B"
    photo := none
    workHistory := "W"
    ministerPosition := some ""
    ministry := some ""
    party := "P" }

/-- A sample stored record with id "y". -/
def memberB : Member := { memberA with id := "y" }

/-!
## Claim theorems
-/

/-- C7: serializing any collection of member records to text and
deserializing that text reproduces an equal collection — the same records
with the same field values, in the same order. -/
theorem C7_serialize_roundtrip (ms : List Member) :
    deserialize (serialize ms) = some ms :=
  deserializeL_ser ms

/-- C8: startup initialization never propagates an error — with an absent
key the store starts empty, and with stored content whose deserialization
fails it also starts empty. -/
theorem C8_init_default (raw : String) :
    initMembers none = [] ∧ (deserialize raw = none → initMembers (some raw) = []) := by
  refine ⟨rfl, fun h => ?_⟩
  simp [initMembers, h]

/-- Witness for C8 at a concrete malformed snapshot. -/
theorem C8_init_default_witness :
    initMembers none = [] ∧ initMembers (some "oops") = [] :=
  ⟨(C8_init_default "oops").1, (C8_init_default "oops").2 rfl⟩

/-- C4: the code contradicts the claim — and its own written Controller
rule.  Because `useForm` is configured with `zodResolver(memberSchema)`,
react-hook-form ignores the field-level `rules` prop, and `memberSchema`
leaves `photoFile` nullable/optional; so an imageless, otherwise-valid
draft passes submit validation even in the Creating state, and the create
appends a record with no `photo` — exactly the input the rule as written
(`photoRuleOk` in the Creating state) would have rejected.  The
Editing-state half of the claim (photo not required) does hold, since the
executed validation never requires the photo at all. -/
theorem C4_photoless_create_accepted :
    sampleDraftNoPhoto.photoFile = none
      ∧ validateDraft sampleDraftNoPhoto = true
      ∧ photoRuleOk none sampleDraftNoPhoto = false
      ∧ (onSubmit "z" sampleDraftNoPhoto
            { members := [], editingId := none, draft := initialValues }).members
          = [mkMember "z" sampleDraftNoPhoto]
      ∧ (mkMember "z" sampleDraftNoPhoto).photo = none :=
  ⟨rfl, rfl, rfl, rfl, rfl⟩

/-- C5: schema validation rejects any draft in which `firstName`,
`lastName`, `workHistory` or `party` is the empty string, and accepts any
draft in which all four are non-empty and the prefix is "นาย" (the
enumeration literal the spec writes as "Mr"). -/
theorem C5_schema_accept_reject (v : Draft) :
    ((v.firstName = "" ∨ v.lastName = "" ∨ v.workHistory = "" ∨ v.party = "") →
        memberSchemaCheck v = false)
      ∧ (v.prefixStr = "นาย" → v.firstName ≠ "" → v.lastName ≠ "" →
          v.workHistory ≠ "" → v.party ≠ "" → memberSchemaCheck v = true) := by
  constructor
  · rintro (h | h | h | h) <;> simp [memberSchemaCheck, h]
  · intro hpfx h1 h2 h3 h4
    have l1 := one_le_length_of_ne _ h1
    have l2 := one_le_length_of_ne _ h2
    have l3 := one_le_length_of_ne _ h3
    have l4 := one_le_length_of_ne _ h4
    simp [memberSchemaCheck, prefixOk, hpfx, l1, l2, l3, l4]

/-- Witness for C5: a draft with empty first name is rejected; the fully
populated sample draft with prefix "นาย" is accepted. -/
theorem C5_schema_accept_reject_witness :
    memberSchemaCheck { sampleDraft with firstName := "" } = false
      ∧ memberSchemaCheck sampleDraft = true :=
  ⟨(C5_schema_accept_reject { sampleDraft with firstName := "" }).1 (Or.inl rfl),
   (C5_schema_accept_reject sampleDraft).2 rfl (by decide) (by decide) (by decide) (by decide)⟩

/-- C10 (implicit): validation only checks that the required text fields
are non-empty and performs no trimming, so a draft whose `firstName`,
`lastName`, `workHistory` and `party` are whitespace-only non-empty
strings passes the schema, and `create` persists the record with those
exact untrimmed field values. -/
theorem C10_whitespace_accepted (v : Draft) (genId : String) (ms : List Member)
    (hpfx : prefixOk v.prefixStr = true)
    (h1 : v.firstName ≠ "") (_w1 : ∀ c ∈ v.firstName.data, c.isWhitespace)
    (h2 : v.lastName ≠ "") (_w2 : ∀ c ∈ v.lastName.data, c.isWhitespace)
    (h3 : v.workHistory ≠ "") (_w3 : ∀ c ∈ v.workHistory.data, c.isWhitespace)
    (h4 : v.party ≠ "") (_w4 : ∀ c ∈ v.party.data, c.isWhitespace) :
    memberSchemaCheck v = true
      ∧ createMembers genId v ms = ms ++ [mkMember genId v]
      ∧ (mkMember genId v).firstName = v.firstName
      ∧ (mkMember genId v).lastName = v.lastName
      ∧ (mkMember genId v).workHistory = v.workHistory
      ∧ (mkMember genId v).party = v.party := by
  refine ⟨?_, rfl, rfl, rfl, rfl, rfl⟩
  have l1 := one_le_length_of_ne _ h1
  have l2 := one_le_length_of_ne _ h2
  have l3 := one_le_length_of_ne _ h3
  have l4 := one_le_length_of_ne _ h4
  simp [memberSchemaCheck, hpfx, l1, l2, l3, l4]

/-- Witness for C10 at the single-space draft. -/
theorem C10_whitespace_accepted_witness :
    memberSchemaCheck spaceDraft = true
      ∧ createMembers "z" spaceDraft [] = [] ++ [mkMember "z" spaceDraft]
      ∧ (mkMember "z" spaceDraft).firstName = spaceDraft.firstName
      ∧ (mkMember "z" spaceDraft).lastName = spaceDraft.lastName
      ∧ (mkMember "z" spaceDraft).workHistory = spaceDraft.workHistory
      ∧ (mkMember "z" spaceDraft).party = spaceDraft.party :=
  C10_whitespace_accepted spaceDraft "z" [] (by decide) (by decide) (by decide)
    (by decide) (by decide) (by decide) (by decide) (by decide) (by decide)

/-- C1 counterexample: `safeUUID` consults only an external randomness
source, never the collection, so when the generated id collides with a
stored id (here both are "x") the create still appends, and the collection
ends with two records of the same id — the appended record's id does not
differ from every existing id. -/
theorem C1_counterexample :
    validateDraft sampleDraft = true
      ∧ memberA.id = "x"
      ∧ (onSubmit "x" sampleDraft
            { members := [memberA], editingId := none, draft := initialValues }).members.map
          Member.id = ["x", "x"] :=
  ⟨rfl, rfl, rfl⟩

/-- C1 (amended): any create — a submit of a draft passing the executed
(resolver-only) validation while no record is being edited, with or
without a photo — appends a record carrying exactly the generated id;
whenever the generated id differs from every id already in the
collection, the appended record's id differs from every existing id.  The
code itself performs no uniqueness check against the collection. -/
theorem C1_create_fresh_append (genId : String) (v : Draft) (st : AppState)
    (h0 : st.editingId = none) (h1 : validateDraft v = true)
    (h2 : ∀ m ∈ st.members, m.id ≠ genId) :
    (onSubmit genId v st).members = st.members ++ [mkMember genId v]
      ∧ (mkMember genId v).id = genId
      ∧ ∀ m ∈ st.members, m.id ≠ (mkMember genId v).id := by
  refine ⟨?_, rfl, fun m hm => h2 m hm⟩
  simp [onSubmit, h0, h1, createMembers]

/-- Witness for C1 (amended) at a fresh generated id "z" and the spec's
own photoless worked example draft, covering the photoless create path. -/
theorem C1_create_fresh_append_witness :
    (onSubmit "z" sampleDraftNoPhoto
        { members := [memberA], editingId := none, draft := initialValues }).members
      = [memberA] ++ [mkMember "z" sampleDraftNoPhoto] :=
  (C1_create_fresh_append "z" sampleDraftNoPhoto
    { members := [memberA], editingId := none, draft := initialValues }
    rfl (by decide) (by decide)).1

/-- Counterexample for C3: the code can hold two records with the same id
(ids are never checked for uniqueness, and the startup snapshot is
arbitrary); deleting that id removes both records, not exactly one. -/
theorem C3_counterexample :
    ([memberA, memberA] : List Member).length = 2
      ∧ memberA.id = "x"
      ∧ deleteMembers "x" [memberA, memberA] = [] :=
  ⟨rfl, rfl, rfl⟩

theorem delete_of_absent (did : String) (ms : List Member)
    (h : ∀ m ∈ ms, m.id ≠ did) : deleteMembers did ms = ms :=
  List.filter_eq_self.mpr fun a ha => by simpa using h a ha

theorem delete_length_of_mem (did : String) (m0 : Member) (hid : m0.id = did) :
    ∀ ms : List Member, (ms.map Member.id).Nodup → m0 ∈ ms →
      (deleteMembers did ms).length + 1 = ms.length := by
  intro ms
  induction ms with
  | nil => intro _ h; cases h
  | cons m tl ih =>
    intro hnd hm0
    rw [List.map_cons, List.nodup_cons] at hnd
    by_cases hm : m.id = did
    · have htl : ∀ a ∈ tl, a.id ≠ did := by
        intro a ha heq
        exact hnd.1 (List.mem_map.mpr ⟨a, ha, heq.trans hm.symm⟩)
      have hkeep := delete_of_absent did tl htl
      have hpm : (m.id != did) = false := by simp [hm]
      simp only [deleteMembers] at hkeep ⊢
      simp [List.filter_cons, hpm, hkeep]
    · have hm0tl : m0 ∈ tl := by
        rcases List.mem_cons.mp hm0 with h | h
        · exact absurd (h ▸ hid) hm
        · exact h
      have hrec := ih hnd.2 hm0tl
      have hpm : (m.id != did) = true := by simpa using hm
      simp only [deleteMembers] at hrec ⊢
      simp [List.filter_cons, hpm]
      omega

/-- C3 (amended): `delete(id)` removes all records carrying that id and
keeps every other record — so exactly one record is removed when the
collection's ids are pairwise distinct and the id is present — leaves the
collection unchanged when no record has that id, and applying it twice in
a row equals applying it once. -/
theorem C3_delete_behavior (did : String) (ms : List Member) :
    (∀ m0, (ms.map Member.id).Nodup → m0 ∈ ms → m0.id = did →
        (deleteMembers did ms).length + 1 = ms.length)
      ∧ ((∀ m ∈ ms, m.id ≠ did) → deleteMembers did ms = ms)
      ∧ deleteMembers did (deleteMembers did ms) = deleteMembers did ms
      ∧ (∀ m ∈ deleteMembers did ms, m.id ≠ did)
      ∧ (∀ m ∈ ms, m.id ≠ did → m ∈ deleteMembers did ms) := by
  refine ⟨fun m0 hnd hm hid => delete_length_of_mem did m0 hid ms hnd hm,
    delete_of_absent did ms, ?_, ?_, ?_⟩
  · simp only [deleteMembers, List.filter_filter]
    simp
  · intro m hm
    simpa using List.of_mem_filter hm
  · intro m hm hne
    exact List.mem_filter.mpr ⟨hm, by simpa using hne⟩

/-- Witness for C3 at a present id (exactly one record removed, the other
kept), an absent id, and the idempotence instance. -/
theorem C3_delete_behavior_witness :
    (deleteMembers "x" [memberA, memberB]).length + 1
        = ([memberA, memberB] : List Member).length
      ∧ deleteMembers "x" [memberB] = [memberB]
      ∧ deleteMembers "x" (deleteMembers "x" [memberA]) = deleteMembers "x" [memberA]
      ∧ memberB ∈ deleteMembers "x" [memberA, memberB] :=
  ⟨(C3_delete_behavior "x" [memberA, memberB]).1 memberA (by decide) (by decide) rfl,
   (C3_delete_behavior "x" [memberB]).2.1 (by decide),
   (C3_delete_behavior "x" [memberA]).2.2.1,
   (C3_delete_behavior "x" [memberA, memberB]).2.2.2.2 memberB (by decide) (by decide)⟩

/-- C9: the delete handler removes every record carrying the deleted id
and keeps all others; when the deleted id is the one being edited the
controller transitions to Creating with the draft reset to defaults, and
when it is a different id the editing state and draft are unchanged. -/
theorem C9_delete_controller (did : String) (st : AppState) :
    (onDelete did st).members = deleteMembers did st.members
      ∧ (∀ m ∈ (onDelete did st).members, m.id ≠ did)
      ∧ (∀ m ∈ st.members, m.id ≠ did → m ∈ (onDelete did st).members)
      ∧ (st.editingId = some did →
          (onDelete did st).editingId = none ∧ (onDelete did st).draft = initialValues)
      ∧ (st.editingId ≠ some did →
          (onDelete did st).editingId = st.editingId ∧ (onDelete did st).draft = st.draft) := by
  refine ⟨rfl, ?_, ?_, fun h => by simp [onDelete, h], fun h => by simp [onDelete, h]⟩
  · intro m hm
    simpa using List.of_mem_filter hm
  · intro m hm hne
    exact List.mem_filter.mpr ⟨hm, by simpa using hne⟩

/-- A concrete controller state for the C9 witness: two stored records,
record "x" currently being edited. -/
def editingState : AppState :=
  { members := [memberA, memberB], editingId := some "x", draft := sampleDraft }

/-- Witness for C9: deleting the edited record "x" resets the controller;
deleting the other id "y" leaves the editing state alone. -/
theorem C9_delete_controller_witness :
    (onDelete "x" editingState).members = deleteMembers "x" [memberA, memberB]
      ∧ ((onDelete "x" editingState).editingId = none
          ∧ (onDelete "x" editingState).draft = initialValues)
      ∧ ((onDelete "y" editingState).editingId = some "x"
          ∧ (onDelete "y" editingState).draft = sampleDraft) :=
  ⟨(C9_delete_controller "x" editingState).1,
   (C9_delete_controller "x" editingState).2.2.2.1 rfl,
   (C9_delete_controller "y" editingState).2.2.2.2 (by decide)⟩

end Parliament
